import Mathlib

/-!
# Verification of the NeoFS S3 gateway listing cache and version-index data model

Shallow embedding of:
* `src/api/cache/objectslist.go` — `ObjectsListCache` (an LRU cache with
  per-entry lifetime built on `gcache`), its key type `ObjectsListKey`, and the
  operations `Get`, `Put`, `CleanCacheEntriesContainingObject`,
  `CreateObjectsListCacheKey`, together with the configuration defaults;
* `src/api/data/tree.go` — the `NodeVersion` / `BaseNodeVersion` /
  `DeleteMarkerInfo` data shapes;
* `src/cmd/gate/app.go` — `TreeClient.signRequest` / `TreeClient.signData`.

Go machine state is made explicit: the wall clock is a `Nat` parameter (gcache
reads `clock.Now()`), byte strings are `List Nat`, fallible Go functions return
`Except`.
-/

/-- Byte strings (Go `[]byte`). -/
abbrev Bytes := List Nat

/-- Type `oid.ID` (neofs-sdk-go object identifier): opaque, comparable, stable once
issued.  Modeled by its stable string form. -/
structure OID where
  repr : String
deriving DecidableEq

/-- Type `cid.ID` (neofs-sdk-go container identifier).  The cache only ever observes
it through `EncodeToString`, which is deterministic; we model the identifier by
that string form. -/
structure CID where
  repr : String
deriving DecidableEq

/-- Method `cid.ID.EncodeToString`. -/
def CID.encodeToString (c : CID) : String := c.repr

/-- Struct `ObjectsListKey` (src/api/cache/objectslist.go:34-40): key of an
`ObjectsListCache` entry.  The Go field `prefix` is named `pfx` here because
the word is reserved in this development; it is the listing prefix string. -/
structure ObjectsListKey where
  cid : String
  pfx : String
  latestOnly : Bool
deriving DecidableEq

/-- A dynamically-typed cache value (Go `interface{}`): either the expected
`[]oid.ID` payload or a value of some other dynamic type, remembered by its
type tag (what `fmt.Sprintf("%T", entry)` would print). -/
inductive CacheEntry where
  | ids (l : List OID)
  | raw (tag : String)
deriving DecidableEq

/-- One gcache item: key, dynamically-typed value, and absolute expiration
time (gcache stores `insertionTime + lifetime`; an item is expired when
`now > expiration`). -/
structure CacheItem where
  key : ObjectsListKey
  value : CacheEntry
  exp : Nat
deriving DecidableEq

/-- Struct `ObjectsListCache` (src/api/cache/objectslist.go:28-32): the gcache LRU
cache state.  `entries` is kept in recency order, most recently used first;
`capacity` and `lifetime` are the values passed to
`gcache.New(size).LRU().Expiration(lifetime)`.  The zap logger carries no
state that the cache observes and is dropped. -/
structure ObjectsListCache where
  entries : List CacheItem
  capacity : Nat
  lifetime : Nat
deriving DecidableEq

/-- Struct `Config` of the cache package: its definition is in the cache package
outside the provided sources, but its shape is fixed by the uses in
`DefaultObjectsListConfig` and `NewObjectsListCache`: a size, an entry
lifetime (a `time.Duration`, modeled in nanoseconds) and a logger. -/
structure Config where
  Size : Nat
  Lifetime : Nat
deriving DecidableEq

/-- Constant `time.Second` in nanoseconds. -/
def timeSecond : Nat := 1000000000

/-- Constant `DefaultObjectsListCacheLifetime = time.Second * 60`
(src/api/cache/objectslist.go). -/
def DefaultObjectsListCacheLifetime : Nat := timeSecond * 60

/-- Constant `DefaultObjectsListCacheSize = 1e5` (src/api/cache/objectslist.go). -/
def DefaultObjectsListCacheSize : Nat := 100000

/-- Function `DefaultObjectsListConfig` (src/api/cache/objectslist.go:49-56). -/
def DefaultObjectsListConfig : Config :=
  { Size := DefaultObjectsListCacheSize
    Lifetime := DefaultObjectsListCacheLifetime }

/-- Constructor `NewObjectsListCache` (src/api/cache/objectslist.go:58-62):
`gcache.New(config.Size).LRU().Expiration(config.Lifetime).Build()` builds an
empty LRU cache whose capacity and per-entry lifetime come from the config. -/
def NewObjectsListCache (config : Config) : ObjectsListCache :=
  { entries := []
    capacity := config.Size
    lifetime := config.Lifetime }

/-- gcache `Cache.Get` as observed by its caller: `some v` when the key is
present and not expired at `now`, `none` when the lookup errs with
`KeyNotFoundError` (absent or expired).  gcache additionally promotes a hit to
the recency front and lazily deletes an expired item; neither changes any
later `Get` result, so the read result is modeled as a pure function. -/
def ObjectsListCache.cacheGet (s : ObjectsListCache) (now : Nat)
    (key : ObjectsListKey) : Option CacheEntry :=
  match s.entries.find? (fun e => e.key == key) with
  | none => none
  | some e => if now ≤ e.exp then some e.value else none

/-- gcache `Cache.Set`: an existing key is updated in place and moved to the
recency front with a fresh expiration; a new key evicts the least recently
used item when the cache is full, then is pushed to the front. -/
def ObjectsListCache.cacheSet (s : ObjectsListCache) (now : Nat)
    (key : ObjectsListKey) (v : CacheEntry) : ObjectsListCache :=
  if s.entries.any (fun e => e.key == key) then
    { s with entries :=
        ⟨key, v, now + s.lifetime⟩ :: s.entries.filter (fun e => e.key != key) }
  else
    let kept := if s.capacity ≤ s.entries.length then s.entries.dropLast
                else s.entries
    { s with entries := ⟨key, v, now + s.lifetime⟩ :: kept }

/-- gcache `Cache.Remove`. -/
def ObjectsListCache.cacheRemove (s : ObjectsListCache)
    (key : ObjectsListKey) : ObjectsListCache :=
  { s with entries := s.entries.filter (fun e => e.key != key) }

/-- gcache `Cache.Keys(true)`: the keys of all non-expired items.  (gcache
enumerates its map in nondeterministic order; the enumeration order is
irrelevant to every use below because removals of distinct keys commute, so we
use the recency order.) -/
def ObjectsListCache.keysNonExpired (s : ObjectsListCache) (now : Nat) :
    List ObjectsListKey :=
  (s.entries.filter (fun e => now ≤ e.exp)).map (·.key)

/-- Method `ObjectsListCache.Get` (src/api/cache/objectslist.go:65-79) together with
its logging effect: the first component is the returned `[]oid.ID` (`none` is
Go `nil`), the second is whether the "invalid cache entry type" warning was
logged.  The function is total: no error is returned or propagated. -/
def ObjectsListCache.GetLogged (s : ObjectsListCache) (now : Nat)
    (key : ObjectsListKey) : Option (List OID) × Bool :=
  match s.cacheGet now key with
  | none => (none, false)
  | some (.ids l) => (some l, false)
  | some (.raw _) => (none, true)

/-- Method `ObjectsListCache.Get`, the returned value alone. -/
def ObjectsListCache.Get (s : ObjectsListCache) (now : Nat)
    (key : ObjectsListKey) : Option (List OID) :=
  (s.GetLogged now key).1

/-- Method `ObjectsListCache.Put` (src/api/cache/objectslist.go:82-88): an empty id
list fails with `fmt.Errorf("list is empty, cid: %s, prefix: %s", ...)`
before the cache is touched; otherwise the list is stored via `cache.Set`
(which cannot fail for this cache configuration). -/
def ObjectsListCache.Put (s : ObjectsListCache) (now : Nat)
    (key : ObjectsListKey) (oids : List OID) : Except String ObjectsListCache :=
  if oids.length = 0 then
    .error ("list is empty, cid: " ++ key.cid ++ ", prefix: " ++ key.pfx)
  else
    .ok (s.cacheSet now key (.ids oids))

/-- Go `strings.HasPrefix(s, pfx)`: `pfx` is a string-prefix of `s`,
expressed on the character sequences of the strings. -/
def stringHasPrefix (s pfx : String) : Bool :=
  pfx.data.isPrefixOf s.data

/-- Whether a cached key is hit by the invalidation for a write of
`objectName` in the container whose string form is `cidStr`:
`cidStr == k.cid && strings.HasPrefix(objectName, k.prefix)`. -/
def matchesWrite (objectName cidStr : String) (k : ObjectsListKey) : Bool :=
  cidStr == k.cid && stringHasPrefix objectName k.pfx

/-- Body of the invalidation loop: remove the key when it matches the write,
leave the cache alone otherwise. -/
def cleanStep (objectName cidStr : String) (st : ObjectsListCache)
    (k : ObjectsListKey) : ObjectsListCache :=
  if matchesWrite objectName cidStr k then st.cacheRemove k else st

/-- Method `ObjectsListCache.CleanCacheEntriesContainingObject`
(src/api/cache/objectslist.go:91-105): snapshot the non-expired keys with
`cache.Keys(true)`, then remove every key of matching container whose prefix
is a string-prefix of the written object name.  (The Go loop also skips keys
that fail the `ObjectsListKey` type assertion; every key ever inserted is an
`ObjectsListKey`, so the key type is fixed in the model.) -/
def ObjectsListCache.CleanCacheEntriesContainingObject (s : ObjectsListCache)
    (now : Nat) (objectName : String) (cnr : CID) : ObjectsListCache :=
  (s.keysNonExpired now).foldl (cleanStep objectName cnr.encodeToString) s

/-- Function `CreateObjectsListCacheKey` (src/api/cache/objectslist.go:108-116). -/
def CreateObjectsListCacheKey (cnr : CID) (pfx : String) (latestOnly : Bool) :
    ObjectsListKey :=
  { cid := cnr.encodeToString
    pfx := pfx
    latestOnly := latestOnly }

/-- Modelled from the spec: the ListingCache caller (the layer code, outside
the provided sources) "recovered locally by skipping the cache write, never
surfaced past ListingCache" — on an `EmptyResult` error from `Put` it keeps
the cache untouched and continues. -/
def putRecovering (s : ObjectsListCache) (now : Nat) (key : ObjectsListKey)
    (oids : List OID) : ObjectsListCache :=
  match s.Put now key oids with
  | .error _ => s
  | .ok s' => s'

/-- Type `user.ID` (neofs-sdk-go), opaque owner identity. -/
structure UserID where
  repr : String
deriving DecidableEq

/-- Struct `DeleteMarkerInfo` (src/api/data/tree.go:18-24): object info kept for a
delete-marker node, whose object is no longer stored in NeoFS.  `time.Time`
is modeled as a Nat timestamp. -/
structure DeleteMarkerInfo where
  FilePath : String
  Created : Nat
  Owner : UserID
deriving DecidableEq

/-- Struct `BaseNodeVersion` (src/api/data/tree.go:32-38): minimal node info from
the tree service.  The Go field `OID oid.ID` is a value whose zero value
denotes "no content id" (delete markers); the present-or-zero distinction is
made explicit with `Option`. -/
structure BaseNodeVersion where
  ID : Nat
  OID : Option OID
  Timestamp : Nat
deriving DecidableEq

/-- Struct `NodeVersion` (src/api/data/tree.go:12-16): a node from the tree service;
`DeleteMarker` is a nil-able pointer (`none` = nil). -/
structure NodeVersion extends BaseNodeVersion where
  DeleteMarker : Option DeleteMarkerInfo
  IsUnversioned : Bool
deriving DecidableEq

/-- Modelled from the spec: `VersionIndex.CreateVersion` (the VersionIndex
implementation is outside the provided sources) "appends a new node" carrying
the stored content id; it is not a delete marker. -/
def createVersion (id : Nat) (contentId : OID) (ts : Nat)
    (unversionedBucket : Bool) : NodeVersion :=
  { ID := id
    OID := some contentId
    Timestamp := ts
    DeleteMarker := none
    IsUnversioned := unversionedBucket }

/-- Modelled from the spec: `VersionIndex.CreateDeleteMarker` (outside the
provided sources) "appends a delete-marker node with no content id". -/
def createDeleteMarker (id : Nat) (ts : Nat) (info : DeleteMarkerInfo) :
    NodeVersion :=
  { ID := id
    OID := none
    Timestamp := ts
    DeleteMarker := some info
    IsUnversioned := false }

/-- A node is one the index produces: built by `createVersion` or by
`createDeleteMarker`. -/
def producedByIndex (n : NodeVersion) : Prop :=
  (∃ id contentId ts u, n = createVersion id contentId ts u) ∨
  (∃ id ts info, n = createDeleteMarker id ts info)

/-- The external collaborators of `TreeClient.signRequest` / `signData`
(src/cmd/gate/app.go:264-284), abstracted over the request-body message type
`Msg`: `marshal` is `proto.Marshal`, `sign` is `crypto.Sign` with the
client's identity key `c.key.PrivateKey` already fixed, and `pubKeyBytes` is
`c.key.PublicKey().Bytes()`. -/
structure TreeClient (Msg : Type) where
  marshal : Msg → Except String Bytes
  sign : Bytes → Except String Bytes
  pubKeyBytes : Bytes

/-- Method `TreeClient.signData` (src/cmd/gate/app.go:264-275): sign `buf` with the
client key; on success call `f(publicKeyBytes, signature)`.  The callback's
effect is embedded in the return value: `.ok (k, s)` means `f` was invoked
exactly once with `(k, s)`; `.error e` means `f` was never invoked. -/
def TreeClient.signData (c : TreeClient Msg) (buf : Bytes) :
    Except String (Bytes × Bytes) :=
  match c.sign buf with
  | .error e => .error e
  | .ok sig => .ok (c.pubKeyBytes, sig)

/-- Method `TreeClient.signRequest` (src/cmd/gate/app.go:277-284): serialize the
request body with `proto.Marshal`, then sign exactly that buffer via
`signData`. -/
def TreeClient.signRequest (c : TreeClient Msg) (requestBody : Msg) :
    Except String (Bytes × Bytes) :=
  match c.marshal requestBody with
  | .error e => .error e
  | .ok buf => c.signData buf

/-- A concrete signing collaborator over `Msg := Nat`, used to exercise
`TreeClient.signRequest` on closed inputs. -/
def signerExample : TreeClient Nat :=
  { marshal := fun n => .ok [n]
    sign := fun b => .ok (0 :: b)
    pubKeyBytes := [7] }

-- sanity checks on concrete inputs (cache round trip and invalidation)
example :
    (ObjectsListCache.Put (NewObjectsListCache DefaultObjectsListConfig) 0
      ⟨"c1", "a/", false⟩ [⟨"id1"⟩]).toOption.map
      (fun s => s.Get 0 ⟨"c1", "a/", false⟩) = some (some [⟨"id1"⟩]) := by
  decide

example :
    (NewObjectsListCache DefaultObjectsListConfig).Get 0 ⟨"c1", "a/", false⟩
      = none := by decide

/-! ## Supporting lemmas -/

/-- Folding the invalidation step over a key list filters the entry list:
exactly the entries whose key is both in the list and matched by the write
are dropped. -/
lemma foldl_cleanStep_entries (o cs : String) (keys : List ObjectsListKey)
    (s : ObjectsListCache) :
    (keys.foldl (cleanStep o cs) s).entries
      = s.entries.filter
          (fun e => !(keys.contains e.key && matchesWrite o cs e.key)) := by
  induction keys generalizing s with
  | nil => simp
  | cons k ks ih =>
    rw [List.foldl_cons, ih]
    by_cases hm : matchesWrite o cs k = true
    · rw [cleanStep, if_pos hm]
      show (s.entries.filter _).filter _ = _
      rw [List.filter_filter]
      refine List.filter_congr fun e _ => ?_
      by_cases hek : e.key = k
      · simp [hek, hm]
      · simp [hek, bne, Ne.symm hek]
    · rw [cleanStep, if_neg hm]
      refine List.filter_congr fun e _ => ?_
      by_cases hek : e.key = k
      · simp [hek, Bool.eq_false_iff.mp (Bool.not_eq_true _ ▸ hm)]
      · simp [hek, Ne.symm hek]

/-- The cleaned entry list, explicitly. -/
lemma clean_entries (s : ObjectsListCache) (now : Nat) (o : String)
    (cnr : CID) :
    (s.CleanCacheEntriesContainingObject now o cnr).entries
      = s.entries.filter
          (fun e => !((s.keysNonExpired now).contains e.key &&
                      matchesWrite o cnr.encodeToString e.key)) :=
  foldl_cleanStep_entries _ _ _ _

/-- After the invalidation runs at time `now`, a key matched by the write is
not retrievable at any later time `now'`. -/
lemma get_clean_matching_eq_none (s : ObjectsListCache) (now now' : Nat)
    (o : String) (cnr : CID) (k : ObjectsListKey) (hnow : now ≤ now')
    (hm : matchesWrite o cnr.encodeToString k = true) :
    (s.CleanCacheEntriesContainingObject now o cnr).Get now' k = none := by
  rw [ObjectsListCache.Get, ObjectsListCache.GetLogged, ObjectsListCache.cacheGet]
  cases hf : (s.CleanCacheEntriesContainingObject now o cnr).entries.find?
      (fun e => e.key == k) with
  | none => rfl
  | some e =>
    have hek : e.key = k := by
      have := List.find?_some hf
      simpa using this
    have hmem := List.mem_of_find?_eq_some hf
    rw [clean_entries] at hmem
    rcases List.mem_filter.mp hmem with ⟨hmemS, hpred⟩
    have hab : ((s.keysNonExpired now).contains e.key &&
        matchesWrite o cnr.encodeToString e.key) = false :=
      (Bool.not_eq_true' _).mp hpred
    have hcontains : (s.keysNonExpired now).contains e.key = false := by
      rcases Bool.and_eq_false_iff.mp hab with h | h
      · exact h
      · rw [hek] at h; rw [h] at hm; cases hm
    have hexp : ¬ now' ≤ e.exp := by
      intro hle
      have hkmem : e.key ∈ s.keysNonExpired now := by
        refine List.mem_map.mpr ⟨e, List.mem_filter.mpr ⟨hmemS, ?_⟩, rfl⟩
        exact decide_eq_true (le_trans hnow hle)
      have hc : (s.keysNonExpired now).contains e.key = true :=
        List.elem_eq_true_of_mem hkmem
      rw [hc] at hcontains
      cases hcontains
    simp [hexp]

/-- Searching with `find?` by key is unchanged by filtering with a predicate that keeps
every entry bearing that key. -/
lemma find?_filter_of_key (l : List CacheItem) (p : CacheItem → Bool)
    (k : ObjectsListKey) (hp : ∀ e, e.key = k → p e = true) :
    (l.filter p).find? (fun e => e.key == k)
      = l.find? (fun e => e.key == k) := by
  induction l with
  | nil => rfl
  | cons e tl ih =>
    by_cases hek : e.key = k
    · rw [List.filter_cons, hp e hek]
      simp [List.find?_cons, hek]
    · have hbeq : (e.key == k) = false := by simpa using hek
      rw [List.filter_cons]
      by_cases hq : p e = true
      · simp only [hq, if_pos]
        rw [List.find?_cons, hbeq, List.find?_cons, hbeq]
        exact ih
      · simp only [Bool.not_eq_true] at hq
        simp only [hq, Bool.false_eq_true, if_neg, not_false_iff]
        rw [List.find?_cons, hbeq]
        exact ih

/-- A key not matched by the write reads the same before and after the
invalidation, at every time. -/
lemma get_clean_nonmatching_eq (s : ObjectsListCache) (now now' : Nat)
    (o : String) (cnr : CID) (k : ObjectsListKey)
    (hm : matchesWrite o cnr.encodeToString k = false) :
    (s.CleanCacheEntriesContainingObject now o cnr).Get now' k
      = s.Get now' k := by
  rw [ObjectsListCache.Get, ObjectsListCache.GetLogged, ObjectsListCache.cacheGet,
    ObjectsListCache.Get, ObjectsListCache.GetLogged, ObjectsListCache.cacheGet,
    clean_entries, find?_filter_of_key]
  intro e hek
  simp [hek, hm]

/-- Calling `cache.Set` followed by `cache.Get` at the same instant on the same key
finds the freshly stored value: the new item sits at the recency front and
its expiration `now + lifetime` has not passed. -/
lemma cacheGet_cacheSet_self (s : ObjectsListCache) (now : Nat)
    (key : ObjectsListKey) (v : CacheEntry) :
    (s.cacheSet now key v).cacheGet now key = some v := by
  rw [ObjectsListCache.cacheSet]
  by_cases hany : s.entries.any (fun e => e.key == key) = true
  · rw [if_pos hany, ObjectsListCache.cacheGet]
    simp [List.find?_cons, Nat.le_add_right]
  · rw [if_neg hany, ObjectsListCache.cacheGet]
    simp [List.find?_cons, Nat.le_add_right]

/-- Inversion for `cacheGet`: a returned value comes from a found, unexpired
entry. -/
lemma cacheGet_inv (s : ObjectsListCache) (now : Nat) (key : ObjectsListKey)
    (v : CacheEntry) (h : s.cacheGet now key = some v) :
    ∃ e, s.entries.find? (fun x => x.key == key) = some e ∧
      now ≤ e.exp ∧ e.value = v := by
  rw [ObjectsListCache.cacheGet] at h
  cases hf : s.entries.find? (fun x => x.key == key) with
  | none => rw [hf] at h; cases h
  | some e =>
    rw [hf] at h
    simp only [] at h
    by_cases hexp : now ≤ e.exp
    · rw [if_pos hexp] at h
      exact ⟨e, rfl, hexp, (Option.some.injEq _ _ ▸ h)⟩
    · rw [if_neg hexp] at h; cases h

/-! ## Claim theorems -/

/-- C1 — Invalidation completeness: for every cache state, every written
object name and container, and every key whose container-id string equals the
container's string form and whose prefix is a string-prefix of the written
name (whatever its latestOnly flag), after `CleanCacheEntriesContainingObject`
runs at time `now`, `Get` at any time `now' ≥ now` misses on that key. -/
theorem clean_invalidates_matching_entries (s : ObjectsListCache)
    (now now' : Nat) (objectName : String) (cnr : CID) (k : ObjectsListKey)
    (hnow : now ≤ now') (hcid : k.cid = cnr.encodeToString)
    (hpfx : stringHasPrefix objectName k.pfx = true) :
    (s.CleanCacheEntriesContainingObject now objectName cnr).Get now' k
      = none := by
  apply get_clean_matching_eq_none _ _ _ _ _ _ hnow
  rw [matchesWrite, hcid, hpfx]
  simp

/-- Witness for C1 at a concrete cache: one fresh whole-prefix entry under
container "c1" is no longer retrievable after a write of "a/b" in "c1". -/
theorem clean_invalidates_matching_entries_witness :
    ((0 ≤ 0) ∧ (ObjectsListKey.mk "c1" "a/" true).cid
        = CID.encodeToString ⟨"c1"⟩ ∧
      stringHasPrefix "a/b" (ObjectsListKey.mk "c1" "a/" true).pfx = true) ∧
    (ObjectsListCache.CleanCacheEntriesContainingObject
        ⟨[⟨⟨"c1", "a/", true⟩, .ids [⟨"i1"⟩], 100⟩], 5, 60⟩ 0 "a/b" ⟨"c1"⟩).Get
        0 ⟨"c1", "a/", true⟩ = none :=
  ⟨⟨Nat.le_refl 0, rfl, by decide⟩,
    clean_invalidates_matching_entries _ 0 0 "a/b" ⟨"c1"⟩ _ (Nat.le_refl 0)
      rfl (by decide)⟩

/-- C9 — Invalidation frame property: a cached entry whose container-id
string differs from the written container's string form, or whose prefix is
not a string-prefix of the written object name, stays in the cache and reads
exactly as before the invalidation, at every time. -/
theorem clean_preserves_nonmatching_entries (s : ObjectsListCache)
    (now now' : Nat) (objectName : String) (cnr : CID) (k : ObjectsListKey)
    (h : k.cid ≠ cnr.encodeToString ∨
         stringHasPrefix objectName k.pfx = false) :
    (∀ e ∈ s.entries, e.key = k →
        e ∈ (s.CleanCacheEntriesContainingObject now objectName cnr).entries) ∧
    (s.CleanCacheEntriesContainingObject now objectName cnr).Get now' k
      = s.Get now' k := by
  have hm : matchesWrite objectName cnr.encodeToString k = false := by
    rw [matchesWrite]
    rcases h with h | h
    · have : (cnr.encodeToString == k.cid) = false := by
        simpa using fun he => h he.symm
      rw [this, Bool.false_and]
    · rw [h, Bool.and_false]
  refine ⟨?_, get_clean_nonmatching_eq _ _ _ _ _ _ hm⟩
  intro e he hek
  rw [clean_entries]
  exact List.mem_filter.mpr ⟨he, by simp [hek, hm]⟩

/-- Witness for C9: an entry under container "c2" survives, unchanged and
readable, a write in container "c1". -/
theorem clean_preserves_nonmatching_entries_witness :
    ((ObjectsListKey.mk "c2" "a/" false).cid ≠ CID.encodeToString ⟨"c1"⟩ ∨
      stringHasPrefix "a/b" (ObjectsListKey.mk "c2" "a/" false).pfx = false) ∧
    ((∀ e ∈ ([⟨⟨"c2", "a/", false⟩, .ids [⟨"i1"⟩], 100⟩] :
          List CacheItem), e.key = ObjectsListKey.mk "c2" "a/" false →
        e ∈ (ObjectsListCache.CleanCacheEntriesContainingObject
          ⟨[⟨⟨"c2", "a/", false⟩, .ids [⟨"i1"⟩], 100⟩], 5, 60⟩
          0 "a/b" ⟨"c1"⟩).entries) ∧
      (ObjectsListCache.CleanCacheEntriesContainingObject
          ⟨[⟨⟨"c2", "a/", false⟩, .ids [⟨"i1"⟩], 100⟩], 5, 60⟩
          0 "a/b" ⟨"c1"⟩).Get 0 ⟨"c2", "a/", false⟩
        = ObjectsListCache.Get ⟨[⟨⟨"c2", "a/", false⟩, .ids [⟨"i1"⟩], 100⟩],
            5, 60⟩ 0 ⟨"c2", "a/", false⟩) :=
  ⟨Or.inl (by decide),
    clean_preserves_nonmatching_entries
      ⟨[⟨⟨"c2", "a/", false⟩, .ids [⟨"i1"⟩], 100⟩], 5, 60⟩ 0 0 "a/b" ⟨"c1"⟩
      ⟨"c2", "a/", false⟩ (Or.inl (by decide))⟩

/-- C10 — Empty-prefix edge case: the empty string is a string-prefix of
every object name, so a whole-container listing entry (empty prefix) in the
written container is invalidated by a write of any object name. -/
theorem clean_invalidates_empty_prefix_entries (s : ObjectsListCache)
    (now now' : Nat) (objectName : String) (cnr : CID) (k : ObjectsListKey)
    (hnow : now ≤ now') (hcid : k.cid = cnr.encodeToString)
    (hpfx : k.pfx = "") :
    (s.CleanCacheEntriesContainingObject now objectName cnr).Get now' k
      = none := by
  apply get_clean_matching_eq_none _ _ _ _ _ _ hnow
  rw [matchesWrite, hcid, hpfx]
  have hemp : stringHasPrefix objectName "" = true := by
    rw [stringHasPrefix]
    show List.isPrefixOf [] objectName.data = true
    cases objectName.data <;> rfl
  rw [hemp]
  simp

/-- Witness for C10: a whole-container entry (prefix "") in "c1" is gone
after a write of the unrelated name "zzz" in "c1". -/
theorem clean_invalidates_empty_prefix_entries_witness :
    ((0 ≤ 0) ∧ (ObjectsListKey.mk "c1" "" false).cid
        = CID.encodeToString ⟨"c1"⟩ ∧
      (ObjectsListKey.mk "c1" "" false).pfx = "") ∧
    (ObjectsListCache.CleanCacheEntriesContainingObject
        ⟨[⟨⟨"c1", "", false⟩, .ids [⟨"i1"⟩], 100⟩], 5, 60⟩ 0 "zzz" ⟨"c1"⟩).Get
        0 ⟨"c1", "", false⟩ = none :=
  ⟨⟨Nat.le_refl 0, rfl, rfl⟩,
    clean_invalidates_empty_prefix_entries _ 0 0 "zzz" ⟨"c1"⟩ _
      (Nat.le_refl 0) rfl rfl⟩

/-- C2 — `Put` with an empty id list fails with the "list is empty" error
(the `EmptyResult` condition), creates no retrievable entry, and the caller
recovers by skipping the cache write, so every subsequent `Get` — on that key
or any other — reads exactly what it would have read before. -/
theorem put_empty_fails_and_caches_nothing (s : ObjectsListCache)
    (now now' : Nat) (key k' : ObjectsListKey) :
    s.Put now key []
        = .error ("list is empty, cid: " ++ key.cid ++ ", prefix: " ++ key.pfx)
      ∧ putRecovering s now key [] = s
      ∧ (putRecovering s now key []).Get now' k' = s.Get now' k' :=
  ⟨rfl, rfl, rfl⟩

/-- C3 — `Get` (which is total: it returns a value in every case, never an
error) yields a cached id list only when an entry for the key is present and
unexpired and holds a `[]oid.ID` value; an unexpired entry of any other
dynamic type makes `Get` log the type warning and return a miss. -/
theorem get_hit_requires_fresh_wellformed_entry (s : ObjectsListCache)
    (now : Nat) (key : ObjectsListKey) :
    (∀ l, s.Get now key = some l →
      ∃ e, s.entries.find? (fun x => x.key == key) = some e ∧
        now ≤ e.exp ∧ e.value = .ids l) ∧
    (∀ e tag, s.entries.find? (fun x => x.key == key) = some e →
      e.value = .raw tag → now ≤ e.exp →
      s.GetLogged now key = (none, true)) := by
  constructor
  · intro l h
    rw [ObjectsListCache.Get] at h
    cases hg : s.cacheGet now key with
    | none => rw [ObjectsListCache.GetLogged, hg] at h; cases h
    | some v =>
      rw [ObjectsListCache.GetLogged, hg] at h
      cases v with
      | ids l' =>
        simp only [] at h
        have hv : l' = l := by simpa using h
        subst hv
        exact cacheGet_inv s now key _ hg
      | raw t => simp at h
  · intro e tag hf hraw hexp
    rw [ObjectsListCache.GetLogged, ObjectsListCache.cacheGet, hf]
    simp [hexp, hraw]

/-- Witness for C3: a fresh entry holding a wrongly-typed value ("int") makes
`Get` warn and miss. -/
theorem get_hit_requires_fresh_wellformed_entry_witness :
    (([⟨⟨"c1", "a/", false⟩, .raw "int", 10⟩] :
        List CacheItem).find?
          (fun x => x.key == ObjectsListKey.mk "c1" "a/" false)
        = some ⟨⟨"c1", "a/", false⟩, .raw "int", 10⟩ ∧
      (CacheEntry.raw "int" : CacheEntry) = .raw "int" ∧ (5 ≤ 10)) ∧
    ObjectsListCache.GetLogged ⟨[⟨⟨"c1", "a/", false⟩, .raw "int", 10⟩], 3, 60⟩
        5 ⟨"c1", "a/", false⟩ = (none, true) :=
  ⟨⟨by decide, rfl, by decide⟩,
    (get_hit_requires_fresh_wellformed_entry
        ⟨[⟨⟨"c1", "a/", false⟩, .raw "int", 10⟩], 3, 60⟩ 5
        ⟨"c1", "a/", false⟩).2
      ⟨⟨"c1", "a/", false⟩, .raw "int", 10⟩ "int" (by decide) rfl (by decide)⟩

/-- C4 — Read-your-write round trip: for every non-empty id list, `Put`
succeeds and an immediate `Get` on the same key (same instant, no intervening
invalidation, expiry or eviction of the fresh entry, which sits at the
recency front) returns exactly the stored id sequence. -/
theorem put_then_get_roundtrip (s : ObjectsListCache) (now : Nat)
    (key : ObjectsListKey) (oids : List OID) (h : oids ≠ []) :
    ∃ s', s.Put now key oids = .ok s' ∧ s'.Get now key = some oids := by
  have hlen : ¬ oids.length = 0 := by simpa using h
  refine ⟨s.cacheSet now key (.ids oids), ?_, ?_⟩
  · rw [ObjectsListCache.Put, if_neg hlen]
  · rw [ObjectsListCache.Get, ObjectsListCache.GetLogged,
      cacheGet_cacheSet_self]

/-- Witness for C4 on a concrete cache holding an unrelated older entry. -/
theorem put_then_get_roundtrip_witness :
    (([⟨"i2"⟩] : List OID) ≠ []) ∧
    ∃ s', ObjectsListCache.Put ⟨[⟨⟨"c1", "b/", false⟩, .ids [⟨"i1"⟩], 100⟩],
        5, 60⟩ 2 ⟨"c1", "a/", false⟩ [⟨"i2"⟩] = .ok s' ∧
      s'.Get 2 ⟨"c1", "a/", false⟩ = some [⟨"i2"⟩] :=
  ⟨by decide,
    put_then_get_roundtrip ⟨[⟨⟨"c1", "b/", false⟩, .ids [⟨"i1"⟩], 100⟩], 5, 60⟩
      2 ⟨"c1", "a/", false⟩ [⟨"i2"⟩] (by decide)⟩

/-- C5 — ListingKey equality is structural and exact:
`CreateObjectsListCacheKey` keys are equal iff the container-id string forms,
the prefixes (verbatim, no normalization) and the latestOnly flags are all
equal. -/
theorem createObjectsListCacheKey_eq_iff (c1 c2 : CID) (p1 p2 : String)
    (f1 f2 : Bool) :
    CreateObjectsListCacheKey c1 p1 f1 = CreateObjectsListCacheKey c2 p2 f2 ↔
      (c1.encodeToString = c2.encodeToString ∧ p1 = p2 ∧ f1 = f2) := by
  rw [CreateObjectsListCacheKey, CreateObjectsListCacheKey,
    ObjectsListKey.mk.injEq]

/-- C6 — Cache configuration and defaults: the constructor takes both the
LRU capacity and the per-entry lifetime from the configuration it is given
(for every configuration, not just the default), starts empty, and the
default configuration is 10^5 entries and a 60-second lifetime. -/
theorem newObjectsListCache_config_and_defaults (config : Config) :
    (NewObjectsListCache config).capacity = config.Size ∧
    (NewObjectsListCache config).lifetime = config.Lifetime ∧
    (NewObjectsListCache config).entries = [] ∧
    DefaultObjectsListConfig.Size = 10 ^ 5 ∧
    DefaultObjectsListConfig.Lifetime = 60 * timeSecond :=
  ⟨rfl, rfl, rfl, by decide, Nat.mul_comm timeSecond 60⟩

/-- C7 — VersionNode discriminant invariant: every node the index produces —
one built by `createVersion` or `createDeleteMarker` — has exactly one of
{content id, delete-marker annotation} set: a content node carries a content
id and no delete marker, a delete-marker node carries a delete marker and no
content id. -/
theorem producedByIndex_exactly_one_discriminant (n : NodeVersion)
    (h : producedByIndex n) :
    (n.OID.isSome = true ∧ n.DeleteMarker = none) ∨
    (n.OID = none ∧ n.DeleteMarker.isSome = true) := by
  rcases h with ⟨id, contentId, ts, u, rfl⟩ | ⟨id, ts, info, rfl⟩
  · exact Or.inl ⟨rfl, rfl⟩
  · exact Or.inr ⟨rfl, rfl⟩

/-- Witness for C7: a concrete content node produced by the index satisfies
the discriminant invariant. -/
theorem producedByIndex_exactly_one_discriminant_witness :
    producedByIndex (createVersion 1 ⟨"o1"⟩ 10 false) ∧
    (((createVersion 1 ⟨"o1"⟩ 10 false).OID.isSome = true ∧
        (createVersion 1 ⟨"o1"⟩ 10 false).DeleteMarker = none) ∨
      ((createVersion 1 ⟨"o1"⟩ 10 false).OID = none ∧
        (createVersion 1 ⟨"o1"⟩ 10 false).DeleteMarker.isSome = true)) :=
  have hp : producedByIndex (createVersion 1 ⟨"o1"⟩ 10 false) :=
    Or.inl ⟨1, ⟨"o1"⟩, 10, false, rfl⟩
  ⟨hp, producedByIndex_exactly_one_discriminant _ hp⟩

/-- C8 — Request signing: `signRequest` attaches a key/signature pair only
when serialization of the request body succeeded and the signature was
computed over exactly that serialized body with the client's identity key
(the attached key being the client's public key); if serialization or
signing fails, the error is returned and nothing is attached. -/
theorem signRequest_covers_serialized_body (Msg : Type) (c : TreeClient Msg)
    (body : Msg) (k sig buf : Bytes) (e : String) :
    (c.signRequest body = .ok (k, sig) →
      ∃ b, c.marshal body = .ok b ∧ c.sign b = .ok sig ∧
        k = c.pubKeyBytes) ∧
    (c.marshal body = .error e → c.signRequest body = .error e) ∧
    (c.marshal body = .ok buf → c.sign buf = .error e →
      c.signRequest body = .error e) := by
  refine ⟨?_, ?_, ?_⟩
  · intro h
    rw [TreeClient.signRequest] at h
    cases hm : c.marshal body with
    | error e' => rw [hm] at h; cases h
    | ok b =>
      rw [hm] at h
      unfold TreeClient.signData at h
      simp only [] at h
      cases hs : c.sign b with
      | error e' => rw [hs] at h; cases h
      | ok sg =>
        rw [hs] at h
        simp only [] at h
        have hps : c.pubKeyBytes = k ∧ sg = sig := by simpa using h
        exact ⟨b, rfl, hps.2 ▸ hs, hps.1.symm⟩
  · intro h
    rw [TreeClient.signRequest, h]
  · intro h1 h2
    rw [TreeClient.signRequest, h1]
    show c.signData buf = .error e
    unfold TreeClient.signData
    rw [h2]

/-- Witness for C8 with the concrete signer `signerExample`. -/
theorem signRequest_covers_serialized_body_witness :
    (signerExample.signRequest 5 = .ok ([7], [0, 5])) ∧
    ∃ b, signerExample.marshal 5 = .ok b ∧
      signerExample.sign b = .ok [0, 5] ∧ [7] = signerExample.pubKeyBytes :=
  ⟨rfl,
    (signRequest_covers_serialized_body Nat signerExample 5 [7] [0, 5] []
      "err").1 rfl⟩
